import Mathlib

/-!
Verification of the MiniFileExplorer command console (`src/main.cpp`): the
quoted/escaped command-line tokenizer, the `ls` listing with its size-sort
comparator, the recursive size aggregator and `du` unit rounding, the
recursive keyword search, and the confirmation/overwrite gating of the
`rm`, `cp` and `mv` handlers.

Modelling conventions:
* Machine integers (`std::uintmax_t`) are `Nat` with an explicit `% 2 ^ 64`
  at each point where the C++ arithmetic can wrap.
* The live filesystem is modelled as a tree: `FsNode.file size sizeReadable`
  is a regular file (`sizeReadable = false` models `fs::file_size` failing),
  `FsNode.dir accessible children` is a directory (`accessible = false`
  models a directory whose contents a `skip_permission_denied` iterator
  cannot enumerate), and `FsNode.other` is any non-regular non-directory
  entry (e.g. a symlink to a non-file).
* Paths handed to the `rm`/`cp`/`mv`/`du` handlers are modelled already
  split into components (`List String`), relative to the tree root (the
  current working directory).  `[]` denotes the root itself, matching the
  `"."` fallback for an empty `parent_path()`.
* The interactive confirmation answer is `Option String`: `none` is
  end-of-input on `std::getline`, `some s` is the line read.
* Handlers return the resulting filesystem tree together with the list of
  messages they print (prompt and diagnostic strings; the interpolated file
  name is elided from the message text).
-/

/-! ### Tokenizer (`TokenizeCommandLine`, main.cpp:88-155) -/

/-- The tokenizer's loop state: the completed-token list, the accumulating
current token, and the three scanner flags of `TokenizeCommandLine`. -/
structure TokState where
  tokens : List String
  current : String
  in_single_quote : Bool
  in_double_quote : Bool
  escape_next : Bool
deriving DecidableEq

/-- The `flush` lambda of `TokenizeCommandLine`: append `current` to the
token list if it is non-empty, then clear it. -/
def flushTok (s : TokState) : TokState :=
  if s.current.isEmpty then s
  else { s with tokens := s.tokens ++ [s.current], current := "" }

/-- One iteration of the `for (char ch : line)` loop of
`TokenizeCommandLine`, as a state transformer. -/
def tokStep (s : TokState) (ch : Char) : TokState :=
  if s.escape_next then { s with current := s.current.push ch, escape_next := false }
  else if ch = '\\' then { s with escape_next := true }
  else if s.in_single_quote then
    (if ch = '\'' then { s with in_single_quote := false }
     else { s with current := s.current.push ch })
  else if s.in_double_quote then
    (if ch = '"' then { s with in_double_quote := false }
     else { s with current := s.current.push ch })
  else if ch = '\'' then { s with in_single_quote := true }
  else if ch = '"' then { s with in_double_quote := true }
  else if ch = ' ' ∨ ch = '\t' ∨ ch = '\n' ∨ ch = '\r' then flushTok s
  else { s with current := s.current.push ch }

/-- Direct embedding of the body of `TokenizeCommandLine`: the character
loop written with the local mutables (`tokens`, `current`,
`in_single_quote`, `in_double_quote`, `escape_next`) as parameters,
followed by the end-of-line check and the final flush. -/
def tokLoop : List Char → List String → String → Bool → Bool → Bool → Option (List String)
  | [], tokens, current, in_s, in_d, esc =>
      if esc || in_s || in_d then none
      else if current.isEmpty then some tokens else some (tokens ++ [current])
  | ch :: rest, tokens, current, in_s, in_d, esc =>
      if esc then tokLoop rest tokens (current.push ch) in_s in_d false
      else if ch = '\\' then tokLoop rest tokens current in_s in_d true
      else if in_s then
        (if ch = '\'' then tokLoop rest tokens current false in_d esc
         else tokLoop rest tokens (current.push ch) in_s in_d esc)
      else if in_d then
        (if ch = '"' then tokLoop rest tokens current in_s false esc
         else tokLoop rest tokens (current.push ch) in_s in_d esc)
      else if ch = '\'' then tokLoop rest tokens current true in_d esc
      else if ch = '"' then tokLoop rest tokens current in_s true esc
      else if ch = ' ' ∨ ch = '\t' ∨ ch = '\n' ∨ ch = '\r' then
        (if current.isEmpty then tokLoop rest tokens current in_s in_d esc
         else tokLoop rest (tokens ++ [current]) "" in_s in_d esc)
      else tokLoop rest tokens (current.push ch) in_s in_d esc

/-- `TokenizeCommandLine(line)`: `none` models returning `std::nullopt`
(a `ParseError`), `some tokens` the parsed argument vector. -/
def TokenizeCommandLine (line : String) : Option (List String) :=
  tokLoop line.data [] "" false false false

/-- The scanner state reached at end of line, starting from the initial
state (no tokens, empty current token, all flags clear). -/
def tokFinal (line : String) : TokState :=
  line.data.foldl tokStep ⟨[], "", false, false, false⟩

/-! ### ASCII lowercasing and substring search (`ToLowerAscii`, `find`) -/

/-- `std::tolower` on one character in the default locale: only ASCII
`A`–`Z` is mapped down. -/
def toLowerAsciiChar (c : Char) : Char :=
  if 'A' ≤ c ∧ c ≤ 'Z' then Char.ofNat (c.toNat + 32) else c

/-- `ToLowerAscii` (main.cpp:40-45). -/
def ToLowerAscii (s : String) : String :=
  String.mk (s.data.map toLowerAsciiChar)

/-- Does `needle` match at the head of `hay`? -/
def leadMatch : List Char → List Char → Bool
  | [], _ => true
  | _ :: _, [] => false
  | n :: ns, h :: hs => n == h && leadMatch ns hs

/-- Does `needle` occur (contiguously) anywhere in `hay`? -/
def hasSub : List Char → List Char → Bool
  | ns, [] => leadMatch ns []
  | ns, h :: hs => leadMatch ns (h :: hs) || hasSub ns hs

/-- `haystack.find(needle) != std::string::npos`. -/
def containsSubstr (haystack needle : String) : Bool :=
  hasSub needle.data haystack.data

/-- `std::string::operator<`: lexicographic byte-wise comparison. -/
def lexLt : List Char → List Char → Bool
  | [], [] => false
  | [], _ :: _ => true
  | _ :: _, [] => false
  | c :: cs, d :: ds => if c < d then true else if d < c then false else lexLt cs ds

/-- `a < b` on `std::string` values. -/
def strLtb (a b : String) : Bool :=
  lexLt a.data b.data

/-! ### The filesystem model -/

mutual
/-- One filesystem object, as observed through the `std::filesystem` calls
the program makes (see the module docstring). -/
inductive FsNode where
  | file (size : Nat) (sizeReadable : Bool)
  | dir (accessible : Bool) (children : FsEntries)
  | other

/-- The named children of a directory, in enumeration order. -/
inductive FsEntries where
  | nil
  | cons (name : String) (node : FsNode) (rest : FsEntries)
end

/-- `entry.is_directory()`. -/
def isDirNode : FsNode → Bool
  | FsNode.dir _ _ => true
  | _ => false

/-- `entry.is_regular_file()`. -/
def isFileNode : FsNode → Bool
  | FsNode.file _ _ => true
  | _ => false

/-- Is the directory empty? -/
def entriesIsNil : FsEntries → Bool
  | FsEntries.nil => true
  | FsEntries.cons _ _ _ => false

/-- `fs::is_empty(path, ec) && !ec` for a directory entry: reading an
inaccessible directory sets `ec`, so it reports `false`. -/
def isEmptyDirNode : FsNode → Bool
  | FsNode.dir accessible children => accessible && entriesIsNil children
  | _ => false

/-! ### Recursive size aggregator (`CalculateDirectorySizeBytes`, main.cpp:594-616) -/

mutual
/-- Visit of one entry of the `recursive_directory_iterator` walk: a
readable regular file adds its size to the wrapping 64-bit total; an
accessible directory is descended into; everything else is skipped. -/
def duNode : Nat → FsNode → Nat
  | total, FsNode.file size readable =>
      if readable then (total + size) % 2 ^ 64 else total
  | total, FsNode.dir true children => duEntries total children
  | total, FsNode.dir false _ => total
  | total, FsNode.other => total

/-- The walk over a directory's children, threading the running total. -/
def duEntries : Nat → FsEntries → Nat
  | total, FsEntries.nil => total
  | total, FsEntries.cons _ node rest => duEntries (duNode total node) rest
end

/-- `CalculateDirectorySizeBytes(dir_path)`: iterating a non-directory or
an inaccessible directory yields no entries, hence total `0`. -/
def CalculateDirectorySizeBytes : FsNode → Nat
  | FsNode.dir true children => duEntries 0 children
  | _ => 0

mutual
/-- Specification-side sum (exact, no 64-bit wrap) of the sizes of the
readable regular files an entry contributes to the walk. -/
def regNode : FsNode → Nat
  | FsNode.file size true => size
  | FsNode.file _ false => 0
  | FsNode.dir true children => regEntries children
  | FsNode.dir false _ => 0
  | FsNode.other => 0

/-- Specification-side sum over a directory's children. -/
def regEntries : FsEntries → Nat
  | FsEntries.nil => 0
  | FsEntries.cons _ node rest => regNode node + regEntries rest
end

/-- The spec's `totalRegularFileSize(root)`: the exact byte total of every
regular file the walk below `root` reaches. -/
def totalRegularFileSize : FsNode → Nat
  | FsNode.dir true children => regEntries children
  | _ => 0

/-! ### Directory lister (`HandleLsCommand`, main.cpp:157-281) -/

/-- The per-entry record built by `HandleLsCommand` (struct `LsItem`). -/
structure LsItem where
  name : String
  type : String
  size : String
  modify_time : String
  size_bytes : Nat
  modify_time_t : Int
  is_dir : Bool
  is_empty_dir : Bool
deriving DecidableEq

/-- `enum class Mode` of `HandleLsCommand`. -/
inductive LsMode where
  | kNormal
  | kSortSize
  | kSortTime
deriving DecidableEq

/-- The `ls -s` comparator (main.cpp:250-258): empty directories last,
then descending size, then ascending name. -/
def lsSizeLess (a b : LsItem) : Bool :=
  if a.is_empty_dir ≠ b.is_empty_dir then !a.is_empty_dir
  else if a.size_bytes ≠ b.size_bytes then decide (b.size_bytes < a.size_bytes)
  else strLtb a.name b.name

/-- The `ls -t` comparator (main.cpp:243-247): descending modification
time, then ascending name. -/
def lsTimeLess (a b : LsItem) : Bool :=
  if a.modify_time_t ≠ b.modify_time_t then decide (b.modify_time_t < a.modify_time_t)
  else strLtb a.name b.name

/-- Metadata assembly for one directory child (main.cpp:207-239).  The
modification time comes from a separate `last_write_time` call, modelled
as an extra input (`none` = the call failed). -/
def buildLsItem (mode : LsMode) (filename : String) (node : FsNode) (mtime : Option Int) : LsItem :=
  let sz : Nat × String × Bool :=
    match mode, node with
    | LsMode.kSortSize, FsNode.dir a children =>
        (CalculateDirectorySizeBytes (FsNode.dir a children),
         toString (CalculateDirectorySizeBytes (FsNode.dir a children)),
         isEmptyDirNode (FsNode.dir a children))
    | _, FsNode.file size true => (size, toString size, false)
    | _, FsNode.file _ false => (0, "-", false)
    | _, _ => (0, "-", false)
  { name := filename ++ (if isDirNode node then "/" else ""),
    type := if isDirNode node then "Dir" else "File",
    size := sz.2.1,
    modify_time := match mtime with | some t => toString t | none => "-",
    size_bytes := sz.1,
    modify_time_t := match mtime with | some t => t | none => 0,
    is_dir := isDirNode node,
    is_empty_dir := sz.2.2 }

/-- `std::sort` with the size comparator: modelled as a sort producing a
permutation of the input that is ordered by the comparator (`std::sort`'s
contract; the algorithm itself is unspecified). -/
def sortBySizeItems (items : List LsItem) : List LsItem :=
  List.insertionSort (fun a b => lsSizeLess b a = false) items

/-- `std::sort` with the time comparator. -/
def sortByTimeItems (items : List LsItem) : List LsItem :=
  List.insertionSort (fun a b => lsTimeLess b a = false) items

/-- `listDirectory`: build one `LsItem` per enumerated child (each paired
with its `last_write_time` result), then reorder according to the mode. -/
def listDirectory (mode : LsMode) (entries : List (String × FsNode × Option Int)) : List LsItem :=
  let items := entries.map fun e => buildLsItem mode e.1 e.2.1 e.2.2
  match mode with
  | LsMode.kNormal => items
  | LsMode.kSortSize => sortBySizeItems items
  | LsMode.kSortTime => sortByTimeItems items

/-! ### Recursive search (`HandleSearchCommand`, main.cpp:424-484) -/

/-- One reported search hit: the rendered absolute path and the type tag. -/
structure SearchResult where
  path : String
  type : String
deriving DecidableEq

mutual
/-- Visit of one entry in the search walk: emit it if the lowercased base
name contains the (already lowercased) keyword — directories with a
trailing separator and type `Dir`, everything else bare with type `File`
— then descend if it is an accessible directory. -/
def searchNode (kwLower dirPath name : String) : FsNode → List SearchResult
  | FsNode.dir acc children =>
      (if containsSubstr (ToLowerAscii name) kwLower then
        [⟨dirPath ++ "/" ++ name ++ "/", "Dir"⟩] else []) ++
      (if acc then searchEntries kwLower (dirPath ++ "/" ++ name) children else [])
  | FsNode.file _ _ =>
      if containsSubstr (ToLowerAscii name) kwLower then
        [⟨dirPath ++ "/" ++ name, "File"⟩] else []
  | FsNode.other =>
      if containsSubstr (ToLowerAscii name) kwLower then
        [⟨dirPath ++ "/" ++ name, "File"⟩] else []

/-- The search walk over a directory's children, in order. -/
def searchEntries (kwLower dirPath : String) : FsEntries → List SearchResult
  | FsEntries.nil => []
  | FsEntries.cons name node rest =>
      searchNode kwLower dirPath name node ++ searchEntries kwLower dirPath rest
end

/-- `searchByKeyword` as performed by `HandleSearchCommand`: lowercase the
keyword, then walk the subtree below the current directory `root` (whose
absolute path is `basePath`). -/
def searchByKeyword (keyword basePath : String) (root : FsNode) : List SearchResult :=
  match root with
  | FsNode.dir true children => searchEntries (ToLowerAscii keyword) basePath children
  | _ => []

mutual
/-- Specification-side list of every entry the walk reaches below the
current directory: (absolute path without suffix, base name, is-directory). -/
def reachNode (dirPath name : String) : FsNode → List (String × String × Bool)
  | FsNode.dir acc children =>
      (dirPath ++ "/" ++ name, name, true) ::
      (if acc then reachList (dirPath ++ "/" ++ name) children else [])
  | FsNode.file _ _ => [(dirPath ++ "/" ++ name, name, false)]
  | FsNode.other => [(dirPath ++ "/" ++ name, name, false)]

/-- Specification-side reachable entries of a children list. -/
def reachList (dirPath : String) : FsEntries → List (String × String × Bool)
  | FsEntries.nil => []
  | FsEntries.cons name node rest =>
      reachNode dirPath name node ++ reachList dirPath rest
end

/-- The claim's rendering of one reachable entry: kept exactly when the
lowercased keyword is a substring of the lowercased base name. -/
def searchMatchRender (kwLower : String) (e : String × String × Bool) : Option SearchResult :=
  if containsSubstr (ToLowerAscii e.2.1) kwLower then
    some ⟨e.1 ++ (if e.2.2 then "/" else ""), if e.2.2 then "Dir" else "File"⟩
  else none

/-- Specification-side search: filter the reachable entries by the base
name match. -/
def searchByKeywordSpec (keyword basePath : String) (root : FsNode) : List SearchResult :=
  match root with
  | FsNode.dir true children =>
      (reachList basePath children).filterMap (searchMatchRender (ToLowerAscii keyword))
  | _ => []

/-! ### Path-addressed filesystem operations (for `rm`, `cp`, `mv`) -/

/-- Find a named child in a directory's entry list. -/
def entriesLookup : FsEntries → String → Option FsNode
  | FsEntries.nil, _ => none
  | FsEntries.cons name node rest, target =>
      if name = target then some node else entriesLookup rest target

/-- Resolve a component path against the tree (`[]` is the root). -/
def fsLookup : List String → FsNode → Option FsNode
  | [], node => some node
  | name :: rest, FsNode.dir _ children =>
      match entriesLookup children name with
      | some child => fsLookup rest child
      | none => none
  | _ :: _, _ => none

/-- `fs::exists(p)`. -/
def existsAt (fs : FsNode) (p : List String) : Bool :=
  (fsLookup p fs).isSome

/-- `fs::exists(p) && fs::is_directory(p)`. -/
def isDirAt (fs : FsNode) (p : List String) : Bool :=
  match fsLookup p fs with
  | some (FsNode.dir _ _) => true
  | _ => false

/-- `fs::exists(p) && fs::is_regular_file(p)`. -/
def isRegularAt (fs : FsNode) (p : List String) : Bool :=
  match fsLookup p fs with
  | some (FsNode.file _ _) => true
  | _ => false

/-- Is there a child of this name? -/
def entriesHas : FsEntries → String → Bool
  | FsEntries.nil, _ => false
  | FsEntries.cons name _ rest, target => name = target || entriesHas rest target

/-- Replace the node stored under `target`. -/
def entriesReplace : FsEntries → String → FsNode → FsEntries
  | FsEntries.nil, _, _ => FsEntries.nil
  | FsEntries.cons name node rest, target, n =>
      FsEntries.cons name (if name = target then n else node) (entriesReplace rest target n)

/-- Append a new child at the end of the list. -/
def entriesAppend : FsEntries → String → FsNode → FsEntries
  | FsEntries.nil, name, n => FsEntries.cons name n FsEntries.nil
  | FsEntries.cons nm nd rest, name, n => FsEntries.cons nm nd (entriesAppend rest name n)

/-- Store `n` under `name`, overwriting an existing child of that name. -/
def putChild (children : FsEntries) (name : String) (n : FsNode) : FsEntries :=
  if entriesHas children name then entriesReplace children name n
  else entriesAppend children name n

mutual
/-- Write `n` at path `p` (creating or overwriting the final component;
ill-formed writes leave the tree unchanged). -/
def fsPut : FsNode → List String → FsNode → FsNode
  | _, [], n => n
  | FsNode.dir a children, [name], n => FsNode.dir a (putChild children name n)
  | FsNode.dir a children, name :: rest, n =>
      FsNode.dir a (fsPutEntries children name rest n)
  | node, _ :: _, _ => node

/-- Descend into the child called `target` and write there. -/
def fsPutEntries : FsEntries → String → List String → FsNode → FsEntries
  | FsEntries.nil, _, _, _ => FsEntries.nil
  | FsEntries.cons nm nd r, target, rest, n =>
      FsEntries.cons nm (if nm = target then fsPut nd rest n else nd)
        (fsPutEntries r target rest n)
end

/-- Drop any child of this name. -/
def entriesDelete : FsEntries → String → FsEntries
  | FsEntries.nil, _ => FsEntries.nil
  | FsEntries.cons nm nd rest, target =>
      if nm = target then entriesDelete rest target
      else FsEntries.cons nm nd (entriesDelete rest target)

mutual
/-- `fs::remove(p)` on the tree (removing the root is not modelled). -/
def fsRemove : FsNode → List String → FsNode
  | node, [] => node
  | FsNode.dir a children, [name] => FsNode.dir a (entriesDelete children name)
  | FsNode.dir a children, name :: rest =>
      FsNode.dir a (fsRemoveEntries children name rest)
  | node, _ :: _ => node

/-- Descend into the child called `target` and remove there. -/
def fsRemoveEntries : FsEntries → String → List String → FsEntries
  | FsEntries.nil, _, _ => FsEntries.nil
  | FsEntries.cons nm nd r, target, rest =>
      FsEntries.cons nm (if nm = target then fsRemove nd rest else nd)
        (fsRemoveEntries r target rest)
end

/-- `fs::copy_file(src, dst)`: write a copy of the node at `src` to `dst`. -/
def copyFileAt (fs : FsNode) (src dst : List String) : FsNode :=
  match fsLookup src fs with
  | some node => fsPut fs dst node
  | none => fs

/-- `fs::rename(src, dst)` on the tree. -/
def fsMove (fs : FsNode) (src dst : List String) : FsNode :=
  match fsLookup src fs with
  | some node => fsRemove (fsPut fs dst node) src
  | none => fs

/-- Destination resolution shared by `cp` and `mv` (main.cpp:502-504,
554-556): if the given destination is an existing directory, append the
source's base name. -/
def ResolveDstPath (fs : FsNode) (src dst : List String) : List String :=
  if isDirAt fs dst then dst ++ [src.getLastD ""] else dst

/-! ### Command handlers (`rm`, `cp`, `mv`, `du`) -/

/-- `HandleRmCommand` (main.cpp:324-356) after argument extraction:
existence and regular-file checks, then the `y/n` confirmation read from
the input stream, then the removal. -/
def HandleRmCommand (fs : FsNode) (path : List String) (answer : Option String) :
    FsNode × List String :=
  match fsLookup path fs with
  | none => (fs, ["File not found"])
  | some node =>
    match node with
    | FsNode.file _ _ =>
      match answer with
      | none => (fs, ["Are you sure to delete? (y/n)"])
      | some confirm =>
        if confirm = "y" then (fsRemove fs path, ["Are you sure to delete? (y/n)"])
        else (fs, ["Are you sure to delete? (y/n)"])
    | _ => (fs, ["Not a file"])

/-- `HandleCpCommand` (main.cpp:486-536) after argument extraction: source
checks, destination resolution, parent checks, then — only when the
resolved destination already exists — the overwrite confirmation. -/
def HandleCpCommand (fs : FsNode) (src dst : List String) (answer : Option String) :
    FsNode × List String :=
  if !isRegularAt fs src then (fs, ["Source not found"])
  else
    let dstFile := ResolveDstPath fs src dst
    if !isDirAt fs dstFile.dropLast then (fs, ["Invalid target path"])
    else if isDirAt fs dstFile then (fs, ["Invalid target path"])
    else if existsAt fs dstFile then
      match answer with
      | none => (fs, ["File exists in target: Overwrite? (y/n)"])
      | some confirm =>
        if confirm = "y" then
          (copyFileAt fs src dstFile, ["File exists in target: Overwrite? (y/n)"])
        else (fs, ["File exists in target: Overwrite? (y/n)"])
    else (copyFileAt fs src dstFile, [])

/-- `HandleMvCommand` (main.cpp:538-592) after argument extraction.
`renameOk = false` models `fs::rename` failing (e.g. across filesystem
boundaries), which triggers the copy-then-delete fallback for regular
files. -/
def HandleMvCommand (fs : FsNode) (src dst : List String) (renameOk : Bool) :
    FsNode × List String :=
  if !existsAt fs src then (fs, ["Source not found"])
  else
    let dstFinal := ResolveDstPath fs src dst
    if !isDirAt fs dstFinal.dropLast then (fs, ["Invalid target path"])
    else if existsAt fs dstFinal then (fs, ["Invalid target path"])
    else if renameOk then (fsMove fs src dstFinal, [])
    else if isRegularAt fs src then (fsRemove (copyFileAt fs src dstFinal) src, [])
    else (fs, ["Invalid target path"])

/-- The unit conversion of `HandleDuCommand` (main.cpp:634-643): byte
total to (value, unit).  The C++ additions are on `std::uintmax_t`, hence
the explicit wrap. -/
def HandleDuReport (bytes : Nat) : Nat × String :=
  let kb : Nat := 1024
  let mb : Nat := 1024 * 1024
  if bytes ≥ mb then (((bytes + mb / 2) % 2 ^ 64) / mb, "MB")
  else (((bytes + kb / 2) % 2 ^ 64) / kb, "KB")

/-! ## Tokenizer lemmas -/

/-- The explicit loop embedding agrees with the fold of `tokStep` followed
by the end-of-line check: the loop fails exactly when a flag survives to
end of line, and otherwise returns the flushed token list. -/
theorem tokLoop_eq_foldl : ∀ (cs : List Char) (tokens : List String) (current : String)
    (s d e : Bool),
    tokLoop cs tokens current s d e =
      (if (List.foldl tokStep ⟨tokens, current, s, d, e⟩ cs).escape_next
          || (List.foldl tokStep ⟨tokens, current, s, d, e⟩ cs).in_single_quote
          || (List.foldl tokStep ⟨tokens, current, s, d, e⟩ cs).in_double_quote then none
       else some (flushTok (List.foldl tokStep ⟨tokens, current, s, d, e⟩ cs)).tokens) := by
  intro cs
  induction cs with
  | nil =>
    intro tokens current s d e
    simp only [tokLoop, List.foldl_nil, flushTok]
    by_cases hcur : current.isEmpty
    · simp [hcur]
    · simp [hcur]
  | cons ch rest ih =>
    intro tokens current s d e
    simp only [tokLoop, List.foldl_cons]
    by_cases he : e = true
    · have hstep : tokStep ⟨tokens, current, s, d, e⟩ ch =
          ⟨tokens, current.push ch, s, d, false⟩ := by
        simp [tokStep, he]
      rw [if_pos he, hstep]
      exact ih tokens (current.push ch) s d false
    · replace he : e = false := by simpa using he
      subst he
      rw [if_neg (by simp)]
      by_cases hbs : ch = '\\'
      · have hstep : tokStep ⟨tokens, current, s, d, false⟩ ch =
            ⟨tokens, current, s, d, true⟩ := by
          simp [tokStep, hbs]
        rw [if_pos hbs, hstep]
        exact ih tokens current s d true
      · rw [if_neg hbs]
        by_cases hs : s = true
        · subst hs
          rw [if_pos rfl]
          by_cases hq : ch = '\''
          · have hstep : tokStep ⟨tokens, current, true, d, false⟩ ch =
                ⟨tokens, current, false, d, false⟩ := by
              simp [tokStep, hbs, hq]
            rw [if_pos hq, hstep]
            exact ih tokens current false d false
          · have hstep : tokStep ⟨tokens, current, true, d, false⟩ ch =
                ⟨tokens, current.push ch, true, d, false⟩ := by
              simp [tokStep, hbs, hq]
            rw [if_neg hq, hstep]
            exact ih tokens (current.push ch) true d false
        · replace hs : s = false := by simpa using hs
          subst hs
          rw [if_neg (by simp)]
          by_cases hd : d = true
          · subst hd
            rw [if_pos rfl]
            by_cases hq : ch = '"'
            · have hstep : tokStep ⟨tokens, current, false, true, false⟩ ch =
                  ⟨tokens, current, false, false, false⟩ := by
                simp [tokStep, hbs, hq]
              rw [if_pos hq, hstep]
              exact ih tokens current false false false
            · have hstep : tokStep ⟨tokens, current, false, true, false⟩ ch =
                  ⟨tokens, current.push ch, false, true, false⟩ := by
                simp [tokStep, hbs, hq]
              rw [if_neg hq, hstep]
              exact ih tokens (current.push ch) false true false
          · replace hd : d = false := by simpa using hd
            subst hd
            rw [if_neg (by simp)]
            by_cases hsq : ch = '\''
            · have hstep : tokStep ⟨tokens, current, false, false, false⟩ ch =
                  ⟨tokens, current, true, false, false⟩ := by
                simp [tokStep, hbs, hsq]
              rw [if_pos hsq, hstep]
              exact ih tokens current true false false
            · rw [if_neg hsq]
              by_cases hdq : ch = '"'
              · have hstep : tokStep ⟨tokens, current, false, false, false⟩ ch =
                    ⟨tokens, current, false, true, false⟩ := by
                  simp [tokStep, hbs, hsq, hdq]
                rw [if_pos hdq, hstep]
                exact ih tokens current false true false
              · rw [if_neg hdq]
                by_cases hws : ch = ' ' ∨ ch = '\t' ∨ ch = '\n' ∨ ch = '\r'
                · have hstep : tokStep ⟨tokens, current, false, false, false⟩ ch =
                      flushTok ⟨tokens, current, false, false, false⟩ := by
                    simp [tokStep, hbs, hsq, hdq, hws]
                  rw [if_pos hws, hstep]
                  by_cases hcur : current.isEmpty
                  · have hfl : flushTok ⟨tokens, current, false, false, false⟩ =
                        ⟨tokens, current, false, false, false⟩ := by
                      simp [flushTok, hcur]
                    rw [if_pos hcur, hfl]
                    exact ih tokens current false false false
                  · have hfl : flushTok ⟨tokens, current, false, false, false⟩ =
                        ⟨tokens ++ [current], "", false, false, false⟩ := by
                      simp [flushTok, hcur]
                    rw [if_neg hcur, hfl]
                    exact ih (tokens ++ [current]) "" false false false
                · have hstep : tokStep ⟨tokens, current, false, false, false⟩ ch =
                      ⟨tokens, current.push ch, false, false, false⟩ := by
                    simp [tokStep, hbs, hsq, hdq, hws]
                  rw [if_neg hws, hstep]
                  exact ih tokens (current.push ch) false false false

/-- Flushing never adds an empty token. -/
theorem flushTok_no_empty (s : TokState) (h : "" ∉ s.tokens) : "" ∉ (flushTok s).tokens := by
  unfold flushTok
  split
  · exact h
  · rename_i hcur
    intro hm
    rcases List.mem_append.mp hm with h1 | h2
    · exact h h1
    · have h2' : "" = s.current := List.mem_singleton.mp h2
      rw [← h2'] at hcur
      exact absurd hcur (by decide)

/-- A scanner step either leaves the completed-token list alone or flushes. -/
theorem tokStep_tokens (s : TokState) (ch : Char) :
    (tokStep s ch).tokens = s.tokens ∨ (tokStep s ch).tokens = (flushTok s).tokens := by
  unfold tokStep
  repeat' split
  all_goals first | (left; rfl) | (right; rfl)

/-- The fold of `tokStep` never adds an empty token. -/
theorem foldl_tokStep_no_empty : ∀ (cs : List Char) (st : TokState),
    "" ∉ st.tokens → "" ∉ (List.foldl tokStep st cs).tokens := by
  intro cs
  induction cs with
  | nil => intro st h; exact h
  | cons ch rest ih =>
    intro st h
    rw [List.foldl_cons]
    apply ih
    rcases tokStep_tokens st ch with heq | heq
    · rw [heq]; exact h
    · rw [heq]; exact flushTok_no_empty st h

/-- C1: `tokenize` is a pure function of the line that fails exactly when,
at end of line, the escape-pending flag is still set or a quote state is
still open, and otherwise returns the flushed token list (empty for a
blank or whitespace-only line); with the spec's five examples. -/
theorem tokenize_end_of_line :
    (∀ line : String,
        TokenizeCommandLine line =
          (if (tokFinal line).escape_next || (tokFinal line).in_single_quote
              || (tokFinal line).in_double_quote then none
           else some (flushTok (tokFinal line)).tokens)) ∧
    TokenizeCommandLine "a b" = some ["a", "b"] ∧
    TokenizeCommandLine "'a b' c" = some ["a b", "c"] ∧
    TokenizeCommandLine "a\\ b" = some ["a b"] ∧
    TokenizeCommandLine "\"unterminated" = none ∧
    TokenizeCommandLine "" = some [] ∧
    TokenizeCommandLine "   " = some [] :=
  ⟨fun line => tokLoop_eq_foldl line.data [] "" false false false,
   by decide, by decide, by decide, by decide, by decide, by decide⟩

/-- C2 counterexample: inside a single-quoted region a backslash is *not*
appended literally — it sets the escape flag (the backslash check at
main.cpp:111 runs before the single-quote check at main.cpp:116), so
`'a\b'` tokenizes to `["ab"]`, not `["a\b"]`. -/
theorem single_quote_backslash_counterexample :
    TokenizeCommandLine "'a\\b'" = some ["ab"] ∧
    ¬ (∀ (s : TokState) (ch : Char), s.in_single_quote = true → s.escape_next = false →
        ch ≠ '\'' → tokStep s ch = { s with current := s.current.push ch }) :=
  ⟨by decide, fun h =>
    absurd (h ⟨[], "", true, false, false⟩ '\\' rfl rfl (by decide)) (by decide)⟩

/-- C2 (amended): inside a single-quoted region with no escape pending,
every character other than a closing single quote **or a backslash** is
appended literally; a backslash instead sets the escape flag (even inside
single quotes), and an escape-pending character is then appended
literally. -/
theorem single_quote_literal_amended :
    (∀ (s : TokState) (ch : Char), s.in_single_quote = true → s.escape_next = false →
        ch ≠ '\'' → ch ≠ '\\' → tokStep s ch = { s with current := s.current.push ch }) ∧
    (∀ s : TokState, s.escape_next = false →
        tokStep s '\\' = { s with escape_next := true }) ∧
    (∀ (s : TokState) (ch : Char), s.escape_next = true →
        tokStep s ch = { s with current := s.current.push ch, escape_next := false }) := by
  refine ⟨?_, ?_, ?_⟩
  · intro s ch h1 h2 h3 h4
    simp [tokStep, h1, h2, h3, h4]
  · intro s h
    simp [tokStep, h]
  · intro s ch h
    simp [tokStep, h]

/-- Witness for the amended C2, at concrete states and characters. -/
theorem single_quote_literal_amended_witness :
    tokStep ⟨[], "", true, false, false⟩ 'x' = ⟨[], "x", true, false, false⟩ ∧
    tokStep ⟨[], "", true, false, false⟩ '\\' = ⟨[], "", true, false, true⟩ ∧
    tokStep ⟨[], "", true, false, true⟩ 'b' = ⟨[], "b", true, false, false⟩ :=
  ⟨single_quote_literal_amended.1 ⟨[], "", true, false, false⟩ 'x' rfl rfl (by decide) (by decide),
   single_quote_literal_amended.2.1 ⟨[], "", true, false, false⟩ rfl,
   single_quote_literal_amended.2.2 ⟨[], "", true, false, true⟩ 'b' rfl⟩

/-- C9: a successful tokenization never contains an empty token; quoted
empty arguments contribute no token at all. -/
theorem tokenize_no_empty_token :
    (∀ (line : String) (ts : List String), TokenizeCommandLine line = some ts → "" ∉ ts) ∧
    TokenizeCommandLine "\"\"" = some [] ∧
    TokenizeCommandLine "''" = some [] ∧
    TokenizeCommandLine "a \"\" b" = some ["a", "b"] := by
  refine ⟨?_, by decide, by decide, by decide⟩
  intro line ts h
  rw [TokenizeCommandLine, tokLoop_eq_foldl] at h
  split at h
  · exact absurd h (by simp)
  · have hts : (flushTok (List.foldl tokStep ⟨[], "", false, false, false⟩ line.data)).tokens = ts :=
      Option.some.inj h
    rw [← hts]
    apply flushTok_no_empty
    apply foldl_tokStep_no_empty
    intro hmem
    simp at hmem

/-- Witness for C9 at a concrete line containing a quoted empty argument. -/
theorem tokenize_no_empty_token_witness :
    "" ∉ (["a", "b"] : List String) ∧ TokenizeCommandLine "a \"\" b" = some ["a", "b"] :=
  ⟨tokenize_no_empty_token.1 "a \"\" b" ["a", "b"] (by decide), by decide⟩

/-! ## Size aggregator and `du` rounding -/

mutual
/-- Visiting one entry adds exactly its specification-side contribution,
modulo the 64-bit wrap of the running total. -/
theorem duNode_eq_reg (total : Nat) (n : FsNode) (h : total < 2 ^ 64) :
    duNode total n = (total + regNode n) % 2 ^ 64 := by
  match n with
  | FsNode.file size readable =>
    cases readable with
    | true => simp [duNode, regNode]
    | false => simp [duNode, regNode]; omega
  | FsNode.dir true children =>
    rw [show duNode total (FsNode.dir true children) = duEntries total children from rfl,
      show regNode (FsNode.dir true children) = regEntries children from rfl]
    exact duEntries_eq_reg total children h
  | FsNode.dir false c => simp [duNode, regNode]; omega
  | FsNode.other => simp [duNode, regNode]; omega

/-- The children walk adds exactly the specification-side sum, modulo the
64-bit wrap of the running total. -/
theorem duEntries_eq_reg (total : Nat) (l : FsEntries) (h : total < 2 ^ 64) :
    duEntries total l = (total + regEntries l) % 2 ^ 64 := by
  match l with
  | FsEntries.nil => simp [duEntries, regEntries]; omega
  | FsEntries.cons name node rest =>
    rw [show duEntries total (FsEntries.cons name node rest)
        = duEntries (duNode total node) rest from rfl]
    rw [duNode_eq_reg total node h]
    rw [duEntries_eq_reg ((total + regNode node) % 2 ^ 64) rest (Nat.mod_lt _ (by norm_num))]
    rw [show regEntries (FsEntries.cons name node rest) = regNode node + regEntries rest from rfl]
    omega
end

/-- The aggregator computes the specification-side total reduced modulo
`2 ^ 64`. -/
theorem CalculateDirectorySizeBytes_eq_mod (root : FsNode) :
    CalculateDirectorySizeBytes root = totalRegularFileSize root % 2 ^ 64 := by
  cases root with
  | file size readable => simp [CalculateDirectorySizeBytes, totalRegularFileSize]
  | dir accessible children =>
    cases accessible with
    | false => simp [CalculateDirectorySizeBytes, totalRegularFileSize]
    | true =>
      rw [show CalculateDirectorySizeBytes (FsNode.dir true children)
          = duEntries 0 children from rfl,
        show totalRegularFileSize (FsNode.dir true children) = regEntries children from rfl]
      rw [duEntries_eq_reg 0 children (by norm_num), Nat.zero_add]
  | other => simp [CalculateDirectorySizeBytes, totalRegularFileSize]

/-- C6 counterexample: the running total is a 64-bit unsigned integer, so
for two files of `2 ^ 63` bytes the aggregator wraps to `0` instead of
returning the sum `2 ^ 64`. -/
theorem size_aggregator_counterexample :
    CalculateDirectorySizeBytes (FsNode.dir true (FsEntries.cons "a" (FsNode.file (2 ^ 63) true)
        (FsEntries.cons "b" (FsNode.file (2 ^ 63) true) FsEntries.nil))) = 0 ∧
    totalRegularFileSize (FsNode.dir true (FsEntries.cons "a" (FsNode.file (2 ^ 63) true)
        (FsEntries.cons "b" (FsNode.file (2 ^ 63) true) FsEntries.nil))) = 2 ^ 64 ∧
    CalculateDirectorySizeBytes (FsNode.dir true (FsEntries.cons "a" (FsNode.file (2 ^ 63) true)
        (FsEntries.cons "b" (FsNode.file (2 ^ 63) true) FsEntries.nil))) ≠
      totalRegularFileSize (FsNode.dir true (FsEntries.cons "a" (FsNode.file (2 ^ 63) true)
        (FsEntries.cons "b" (FsNode.file (2 ^ 63) true) FsEntries.nil))) :=
  ⟨by decide, by decide, by decide⟩

/-- C6 (amended): the aggregator never fails and returns the byte total of
every readable regular file reachable below the root — directories,
non-files, unreadable files and permission-denied subtrees contributing
zero — reduced modulo `2 ^ 64`; the total is exact whenever it fits in 64
bits.  Example: files of 10, 20 and 30 bytes at various depths sum to 60
while an unreadable file, a non-file entry and an inaccessible directory
contribute nothing. -/
theorem size_aggregator_amended :
    (∀ root : FsNode, CalculateDirectorySizeBytes root = totalRegularFileSize root % 2 ^ 64) ∧
    (∀ root : FsNode, totalRegularFileSize root < 2 ^ 64 →
        CalculateDirectorySizeBytes root = totalRegularFileSize root) ∧
    CalculateDirectorySizeBytes
      (FsNode.dir true (FsEntries.cons "a" (FsNode.file 10 true)
        (FsEntries.cons "sub" (FsNode.dir true (FsEntries.cons "b" (FsNode.file 20 true)
          (FsEntries.cons "deep" (FsNode.dir true
            (FsEntries.cons "c" (FsNode.file 30 true) FsEntries.nil)) FsEntries.nil)))
        (FsEntries.cons "blocked" (FsNode.dir false
          (FsEntries.cons "z" (FsNode.file 999 true) FsEntries.nil))
        (FsEntries.cons "weird" FsNode.other
        (FsEntries.cons "bad" (FsNode.file 7 false) FsEntries.nil)))))) = 60 := by
  refine ⟨CalculateDirectorySizeBytes_eq_mod, ?_, by decide⟩
  intro root h
  rw [CalculateDirectorySizeBytes_eq_mod root]
  exact Nat.mod_eq_of_lt h

/-- Witness for the amended C6 at a concrete one-file tree. -/
theorem size_aggregator_amended_witness :
    totalRegularFileSize
        (FsNode.dir true (FsEntries.cons "a" (FsNode.file 10 true) FsEntries.nil)) < 2 ^ 64 ∧
    CalculateDirectorySizeBytes
        (FsNode.dir true (FsEntries.cons "a" (FsNode.file 10 true) FsEntries.nil)) =
      totalRegularFileSize
        (FsNode.dir true (FsEntries.cons "a" (FsNode.file 10 true) FsEntries.nil)) :=
  ⟨by decide, size_aggregator_amended.2.1 _ (by decide)⟩

/-- C4 counterexample: the `du` additions are on `std::uintmax_t`; at a
byte total of `2 ^ 64 - 1` the half-unit addition wraps, so the report is
`0` MB rather than the claim's `(b + 524288) / 1048576`. -/
theorem du_rounding_counterexample :
    (HandleDuReport (2 ^ 64 - 1)).1 = 0 ∧
    (2 ^ 64 - 1 + 524288) / 1048576 = 17592186044416 ∧
    (HandleDuReport (2 ^ 64 - 1)).1 ≠ (2 ^ 64 - 1 + 524288) / 1048576 :=
  ⟨by decide, by decide, by decide⟩

/-- C4 (amended): the `du` report uses round-half-up integer conversion —
for `b ≥ 1,048,576` it reports `(b + 524,288) / 1,048,576` whole MB
provided the addition does not wrap 64 bits (`b + 524,288 < 2 ^ 64`), and
for smaller `b` it reports `(b + 512) / 1,024` whole KB; with the spec's
three examples. -/
theorem du_rounding_amended :
    (∀ b : Nat, 1048576 ≤ b → b + 524288 < 2 ^ 64 →
        HandleDuReport b = ((b + 524288) / 1048576, "MB")) ∧
    (∀ b : Nat, b < 1048576 → HandleDuReport b = ((b + 512) / 1024, "KB")) ∧
    HandleDuReport 1048576 = (1, "MB") ∧
    HandleDuReport 1500 = (1, "KB") ∧
    HandleDuReport 1048 = (1, "KB") := by
  refine ⟨?_, ?_, by decide, by decide, by decide⟩
  · intro b h1 h2
    simp only [HandleDuReport]
    split
    · norm_num
      norm_num at h2
      rw [Nat.mod_eq_of_lt h2]
    · rename_i hge
      exact absurd (show b ≥ 1024 * 1024 by omega) hge
  · intro b h
    simp only [HandleDuReport]
    split
    · rename_i hge
      exact absurd hge (by omega)
    · norm_num
      rw [Nat.mod_eq_of_lt (by omega)]

/-- Witness for the amended C4 at concrete byte totals in each branch. -/
theorem du_rounding_amended_witness :
    HandleDuReport 2097152 = (2, "MB") ∧ HandleDuReport 600 = (1, "KB") := by
  constructor
  · rw [du_rounding_amended.1 2097152 (by norm_num) (by norm_num)]
  · rw [du_rounding_amended.2.1 600 (by norm_num)]

/-! ## Lister metadata outside size-sort mode, and handler gating -/

/-- C7: in any mode other than `kSortSize`, a directory's `LsItem` is
independent of the directory's contents (so the recursive size walk
cannot have been consulted) and reports size `"-"` with `size_bytes = 0`. -/
theorem dir_size_unknown_outside_size_sort (mode : LsMode) (filename : String) (a : Bool)
    (children children' : FsEntries) (mtime : Option Int) (h : mode ≠ LsMode.kSortSize) :
    buildLsItem mode filename (FsNode.dir a children) mtime =
      buildLsItem mode filename (FsNode.dir a children') mtime ∧
    (buildLsItem mode filename (FsNode.dir a children) mtime).size = "-" ∧
    (buildLsItem mode filename (FsNode.dir a children) mtime).size_bytes = 0 := by
  cases mode with
  | kSortSize => exact absurd rfl h
  | kNormal => exact ⟨rfl, rfl, rfl⟩
  | kSortTime => exact ⟨rfl, rfl, rfl⟩

/-- Witness for C7: a plain-mode directory item ignores the children. -/
theorem dir_size_unknown_outside_size_sort_witness :
    buildLsItem LsMode.kNormal "d"
        (FsNode.dir true (FsEntries.cons "x" (FsNode.file 5 true) FsEntries.nil)) none =
      buildLsItem LsMode.kNormal "d" (FsNode.dir true FsEntries.nil) none ∧
    (buildLsItem LsMode.kNormal "d"
        (FsNode.dir true (FsEntries.cons "x" (FsNode.file 5 true) FsEntries.nil)) none).size = "-" ∧
    (buildLsItem LsMode.kNormal "d"
        (FsNode.dir true (FsEntries.cons "x" (FsNode.file 5 true) FsEntries.nil)) none).size_bytes = 0 :=
  dir_size_unknown_outside_size_sort LsMode.kNormal "d" true
    (FsEntries.cons "x" (FsNode.file 5 true) FsEntries.nil) FsEntries.nil none (by decide)

/-- C8: a declined (non-`"y"`) or end-of-input answer to the `rm`
confirmation, or to the `cp` overwrite confirmation when the resolved
destination already exists, leaves the filesystem unchanged. -/
theorem confirmation_decline_no_change :
    (∀ (fs : FsNode) (path : List String) (answer : Option String),
        answer ≠ some "y" → (HandleRmCommand fs path answer).1 = fs) ∧
    (∀ (fs : FsNode) (src dst : List String) (answer : Option String),
        existsAt fs (ResolveDstPath fs src dst) = true → answer ≠ some "y" →
        (HandleCpCommand fs src dst answer).1 = fs) := by
  constructor
  · intro fs path answer h
    unfold HandleRmCommand
    cases hlk : fsLookup path fs with
    | none => rfl
    | some node =>
      cases node with
      | file size readable =>
        cases answer with
        | none => rfl
        | some confirm =>
          have hc : ¬ confirm = "y" := fun he => h (by rw [he])
          show (if confirm = "y" then (fsRemove fs path, ["Are you sure to delete? (y/n)"])
              else (fs, ["Are you sure to delete? (y/n)"])).1 = fs
          rw [if_neg hc]
      | dir a c => rfl
      | other => rfl
  · intro fs src dst answer hex h
    simp only [HandleCpCommand]
    by_cases h1 : (!isRegularAt fs src) = true
    · rw [if_pos h1]
    · rw [if_neg h1]
      by_cases h2 : (!isDirAt fs (ResolveDstPath fs src dst).dropLast) = true
      · rw [if_pos h2]
      · rw [if_neg h2]
        by_cases h3 : isDirAt fs (ResolveDstPath fs src dst) = true
        · rw [if_pos h3]
        · rw [if_neg h3, if_pos hex]
          cases answer with
          | none => rfl
          | some confirm =>
            have hc : ¬ confirm = "y" := fun he => h (by rw [he])
            show (if confirm = "y" then
                (copyFileAt fs src (ResolveDstPath fs src dst),
                 ["File exists in target: Overwrite? (y/n)"])
              else (fs, ["File exists in target: Overwrite? (y/n)"])).1 = fs
            rw [if_neg hc]

/-- Witness for C8: declining `rm` and hitting end-of-input on the `cp`
overwrite prompt leave concrete trees unchanged. -/
theorem confirmation_decline_no_change_witness :
    (HandleRmCommand (FsNode.dir true (FsEntries.cons "a" (FsNode.file 5 true) FsEntries.nil))
        ["a"] (some "n")).1 =
      FsNode.dir true (FsEntries.cons "a" (FsNode.file 5 true) FsEntries.nil) ∧
    (HandleCpCommand (FsNode.dir true (FsEntries.cons "a" (FsNode.file 1 true)
        (FsEntries.cons "b" (FsNode.file 2 true) FsEntries.nil))) ["a"] ["b"] none).1 =
      FsNode.dir true (FsEntries.cons "a" (FsNode.file 1 true)
        (FsEntries.cons "b" (FsNode.file 2 true) FsEntries.nil)) :=
  ⟨confirmation_decline_no_change.1 _ _ _ (by decide),
   confirmation_decline_no_change.2 _ _ _ _ (by decide) (by decide)⟩

/-- C10: when the resolved destination already exists, `mv` only prints an
error and changes nothing — it never renames, copies or deletes — whereas
`cp` onto the same existing destination proceeds after a `"y"` answer and
overwrites it. -/
theorem mv_never_overwrites :
    (∀ (fs : FsNode) (src dst : List String) (renameOk : Bool),
        existsAt fs (ResolveDstPath fs src dst) = true →
        (HandleMvCommand fs src dst renameOk).1 = fs ∧
        ((HandleMvCommand fs src dst renameOk).2 = ["Invalid target path"] ∨
         (HandleMvCommand fs src dst renameOk).2 = ["Source not found"])) ∧
    (HandleCpCommand (FsNode.dir true (FsEntries.cons "a" (FsNode.file 1 true)
        (FsEntries.cons "b" (FsNode.file 2 true) FsEntries.nil))) ["a"] ["b"] (some "y")).1 =
      FsNode.dir true (FsEntries.cons "a" (FsNode.file 1 true)
        (FsEntries.cons "b" (FsNode.file 1 true) FsEntries.nil)) := by
  refine ⟨?_, by rfl⟩
  intro fs src dst renameOk hex
  simp only [HandleMvCommand]
  by_cases h1 : (!existsAt fs src) = true
  · rw [if_pos h1]
    exact ⟨rfl, Or.inr rfl⟩
  · rw [if_neg h1]
    by_cases h2 : (!isDirAt fs (ResolveDstPath fs src dst).dropLast) = true
    · rw [if_pos h2]
      exact ⟨rfl, Or.inl rfl⟩
    · rw [if_neg h2, if_pos hex]
      exact ⟨rfl, Or.inl rfl⟩

/-- Witness for C10: `mv` onto an existing destination on a concrete tree. -/
theorem mv_never_overwrites_witness :
    (HandleMvCommand (FsNode.dir true (FsEntries.cons "a" (FsNode.file 1 true)
        (FsEntries.cons "b" (FsNode.file 2 true) FsEntries.nil))) ["a"] ["b"] true).1 =
      FsNode.dir true (FsEntries.cons "a" (FsNode.file 1 true)
        (FsEntries.cons "b" (FsNode.file 2 true) FsEntries.nil)) ∧
    ((HandleMvCommand (FsNode.dir true (FsEntries.cons "a" (FsNode.file 1 true)
        (FsEntries.cons "b" (FsNode.file 2 true) FsEntries.nil))) ["a"] ["b"] true).2 =
        ["Invalid target path"] ∨
     (HandleMvCommand (FsNode.dir true (FsEntries.cons "a" (FsNode.file 1 true)
        (FsEntries.cons "b" (FsNode.file 2 true) FsEntries.nil))) ["a"] ["b"] true).2 =
        ["Source not found"]) :=
  mv_never_overwrites.1 _ ["a"] ["b"] true (by decide)

/-! ## Size-sort comparator lemmas -/

/-- Byte-wise lexicographic `<` on strings: `¬(a < b)` and `¬(b < c)`
imply `¬(a < c)`. -/
theorem lexLt_false_trans : ∀ (a b c : List Char),
    lexLt a b = false → lexLt b c = false → lexLt a c = false
  | a, _, [], _, _ => by cases a <;> rfl
  | [], [], _, _, h2 => h2
  | [], _ :: _, _, h1, _ => by simp [lexLt] at h1
  | _ :: _, [], _ :: _, _, h2 => by simp [lexLt] at h2
  | a :: as, b :: bs, c :: cs, h1, h2 => by
    simp only [lexLt] at h1 h2 ⊢
    by_cases hab : a < b
    · rw [if_pos hab] at h1
      exact absurd h1 (by decide)
    · rw [if_neg hab] at h1
      by_cases hbc : b < c
      · rw [if_pos hbc] at h2
        exact absurd h2 (by decide)
      · rw [if_neg hbc] at h2
        have hac : ¬ a < c := fun h => absurd (lt_of_lt_of_le h (le_of_not_lt hbc)) hab
        rw [if_neg hac]
        by_cases hca : c < a
        · rw [if_pos hca]
        · rw [if_neg hca]
          by_cases hba : b < a
          · exact absurd (lt_of_le_of_lt (le_of_not_lt hbc) hba) hca
          · rw [if_neg hba] at h1
            by_cases hcb : c < b
            · exact absurd (lt_of_lt_of_le hcb (le_of_not_lt hab)) hca
            · rw [if_neg hcb] at h2
              exact lexLt_false_trans as bs cs h1 h2

/-- Byte-wise lexicographic `<` on strings is asymmetric. -/
theorem lexLt_asymm : ∀ (a b : List Char), lexLt a b = true → lexLt b a = false
  | [], [], h => by simp [lexLt] at h
  | [], _ :: _, _ => rfl
  | _ :: _, [], h => by simp [lexLt] at h
  | a :: as, b :: bs, h => by
    simp only [lexLt] at h ⊢
    by_cases hab : a < b
    · rw [if_neg (lt_asymm hab), if_pos hab]
    · rw [if_neg hab] at h
      by_cases hba : b < a
      · rw [if_pos hba] at h
        exact absurd h (by decide)
      · rw [if_neg hba] at h
        rw [if_neg hba, if_neg hab]
        exact lexLt_asymm as bs h

/-- Characterization of the `ls -s` comparator: `a` sorts strictly before
`b` exactly when `a` is not an empty directory while `b` is, or the two
empty-directory flags agree and `a` has strictly larger computed size, or
the sizes also agree and `a`'s display name is lexicographically smaller. -/
theorem lsSizeLess_iff (a b : LsItem) : lsSizeLess a b = true ↔
    (a.is_empty_dir = false ∧ b.is_empty_dir = true) ∨
    (a.is_empty_dir = b.is_empty_dir ∧
      (b.size_bytes < a.size_bytes ∨
        (a.size_bytes = b.size_bytes ∧ strLtb a.name b.name = true))) := by
  unfold lsSizeLess
  cases ha : a.is_empty_dir <;> cases hb : b.is_empty_dir <;>
    by_cases hs : a.size_bytes = b.size_bytes <;>
      simp [ha, hb, hs] <;> omega

/-- The `ls -s` comparator is asymmetric. -/
theorem lsSizeLess_asymm (a b : LsItem) (h : lsSizeLess a b = true) :
    lsSizeLess b a = false := by
  rw [Bool.eq_false_iff]
  intro h2
  rw [lsSizeLess_iff] at h h2
  rcases h with ⟨h1, h2'⟩ | ⟨h1, h2'⟩ <;> rcases h2 with ⟨g1, g2⟩ | ⟨g1, g2⟩
  · rw [h2'] at g1
    exact absurd g1 (by decide)
  · rw [g1, h1] at h2'
    exact absurd h2' (by decide)
  · rw [← h1, g2] at g1
    exact absurd g1 (by decide)
  · rcases h2' with hsz | ⟨hsz, hnm⟩ <;> rcases g2 with gsz | ⟨gsz, gnm⟩
    · omega
    · omega
    · omega
    · simp only [strLtb] at hnm gnm
      rw [lexLt_asymm _ _ hnm] at gnm
      exact absurd gnm (by decide)

/-- The negation of the `ls -s` comparator is transitive (the property
`std::sort` requires of a strict weak ordering). -/
theorem lsSizeLess_flip_trans (a b c : LsItem) (hab : lsSizeLess b a = false)
    (hbc : lsSizeLess c b = false) : lsSizeLess c a = false := by
  have habP : ¬ ((b.is_empty_dir = false ∧ a.is_empty_dir = true) ∨
      (b.is_empty_dir = a.is_empty_dir ∧
        (a.size_bytes < b.size_bytes ∨
          (b.size_bytes = a.size_bytes ∧ strLtb b.name a.name = true)))) := by
    intro hp
    have hq := (lsSizeLess_iff b a).mpr hp
    rw [hab] at hq
    exact absurd hq (by decide)
  have hbcP : ¬ ((c.is_empty_dir = false ∧ b.is_empty_dir = true) ∨
      (c.is_empty_dir = b.is_empty_dir ∧
        (b.size_bytes < c.size_bytes ∨
          (c.size_bytes = b.size_bytes ∧ strLtb c.name b.name = true)))) := by
    intro hp
    have hq := (lsSizeLess_iff c b).mpr hp
    rw [hbc] at hq
    exact absurd hq (by decide)
  rw [Bool.eq_false_iff]
  intro hca'
  rw [lsSizeLess_iff] at hca'
  rcases hca' with ⟨h1, h2⟩ | ⟨h1, h2⟩
  · cases hbemp : b.is_empty_dir
    · exact habP (Or.inl ⟨hbemp, h2⟩)
    · exact hbcP (Or.inl ⟨h1, hbemp⟩)
  · by_cases hbe : b.is_empty_dir = a.is_empty_dir
    · have hab2 : ¬ (a.size_bytes < b.size_bytes ∨
          (b.size_bytes = a.size_bytes ∧ strLtb b.name a.name = true)) :=
        fun hh => habP (Or.inr ⟨hbe, hh⟩)
      have hbc2 : ¬ (b.size_bytes < c.size_bytes ∨
          (c.size_bytes = b.size_bytes ∧ strLtb c.name b.name = true)) :=
        fun hh => hbcP (Or.inr ⟨h1.trans hbe.symm, hh⟩)
      push_neg at hab2 hbc2
      rcases h2 with hsz | ⟨hsz, hnm⟩
      · omega
      · have hbeq : b.size_bytes = a.size_bytes := by omega
        have hceq : c.size_bytes = b.size_bytes := by omega
        have hn1 : ¬ strLtb b.name a.name = true := hab2.2 hbeq
        have hn2 : ¬ strLtb c.name b.name = true := hbc2.2 hceq
        simp only [strLtb] at hn1 hn2 hnm
        rw [lexLt_false_trans c.name.data b.name.data a.name.data
          (Bool.eq_false_iff.mpr hn2) (Bool.eq_false_iff.mpr hn1)] at hnm
        exact absurd hnm (by decide)
    · cases hbemp : b.is_empty_dir <;> cases haemp : a.is_empty_dir
      · rw [hbemp, haemp] at hbe
        exact absurd rfl hbe
      · exact habP (Or.inl ⟨hbemp, haemp⟩)
      · exact hbcP (Or.inl ⟨h1.trans haemp, hbemp⟩)
      · rw [hbemp, haemp] at hbe
        exact absurd rfl hbe

/-- C3: in `kSortSize` mode the listing orders every pair by the
partition "empty directories last", then strictly descending computed
size, then ascending name — stated as the pairwise characterization of
the comparator, the sortedness-plus-permutation contract of the sort, and
the spec's three-entry example `[f(100), D(50), E(empty)]`. -/
theorem ls_size_sort_order :
    (∀ a b : LsItem, lsSizeLess a b = true ↔
        (a.is_empty_dir = false ∧ b.is_empty_dir = true) ∨
        (a.is_empty_dir = b.is_empty_dir ∧
          (b.size_bytes < a.size_bytes ∨
            (a.size_bytes = b.size_bytes ∧ strLtb a.name b.name = true)))) ∧
    (∀ items : List LsItem,
        (sortBySizeItems items).Perm items ∧
        List.Pairwise (fun a b => lsSizeLess b a = false) (sortBySizeItems items)) ∧
    (listDirectory LsMode.kSortSize
        [("E", FsNode.dir true FsEntries.nil, none),
         ("f", FsNode.file 100 true, none),
         ("D", FsNode.dir true (FsEntries.cons "x" (FsNode.file 50 true) FsEntries.nil),
          none)]).map
        (fun i => (i.name, i.size_bytes, i.is_empty_dir)) =
      [("f", 100, false), ("D/", 50, false), ("E/", 0, true)] := by
  refine ⟨lsSizeLess_iff, ?_, by decide⟩
  intro items
  constructor
  · exact List.perm_insertionSort _ items
  · haveI : IsTotal LsItem (fun a b => lsSizeLess b a = false) := by
      constructor
      intro a b
      by_cases h : lsSizeLess b a = true
      · exact Or.inr (lsSizeLess_asymm b a h)
      · exact Or.inl (Bool.eq_false_iff.mpr h)
    haveI : IsTrans LsItem (fun a b => lsSizeLess b a = false) := by
      constructor
      intro a b c hab hbc
      exact lsSizeLess_flip_trans a b c hab hbc
    exact List.sorted_insertionSort _ items

/-! ## Search refinement -/

mutual
/-- Visiting one entry emits exactly the claim-side rendering of that
entry followed by the matches among its reachable descendants. -/
theorem searchNode_eq_spec (kw dirPath name : String) (n : FsNode) :
    searchNode kw dirPath name n =
      (reachNode dirPath name n).filterMap (searchMatchRender kw) := by
  match n with
  | FsNode.dir acc children =>
    cases acc with
    | true =>
      by_cases hm : containsSubstr (ToLowerAscii name) kw = true
      · simp [searchNode, reachNode, searchMatchRender, hm,
          searchEntries_eq_spec kw (dirPath ++ "/" ++ name) children]
      · simp [searchNode, reachNode, searchMatchRender, hm,
          searchEntries_eq_spec kw (dirPath ++ "/" ++ name) children]
    | false =>
      by_cases hm : containsSubstr (ToLowerAscii name) kw = true
      · simp [searchNode, reachNode, searchMatchRender, hm]
      · simp [searchNode, reachNode, searchMatchRender, hm]
  | FsNode.file size r =>
    by_cases hm : containsSubstr (ToLowerAscii name) kw = true
    · simp [searchNode, reachNode, searchMatchRender, hm]
    · simp [searchNode, reachNode, searchMatchRender, hm]
  | FsNode.other =>
    by_cases hm : containsSubstr (ToLowerAscii name) kw = true
    · simp [searchNode, reachNode, searchMatchRender, hm]
    · simp [searchNode, reachNode, searchMatchRender, hm]

/-- The walk over a children list equals the claim-side filter of its
reachable entries. -/
theorem searchEntries_eq_spec (kw dirPath : String) (l : FsEntries) :
    searchEntries kw dirPath l = (reachList dirPath l).filterMap (searchMatchRender kw) := by
  match l with
  | FsEntries.nil => simp [searchEntries, reachList]
  | FsEntries.cons name node rest =>
    rw [show searchEntries kw dirPath (FsEntries.cons name node rest) =
        searchNode kw dirPath name node ++ searchEntries kw dirPath rest from rfl,
      show reachList dirPath (FsEntries.cons name node rest) =
        reachNode dirPath name node ++ reachList dirPath rest from rfl,
      List.filterMap_append, searchNode_eq_spec kw dirPath name node,
      searchEntries_eq_spec kw dirPath rest]
end

/-- C5: the search reports exactly the reachable entries (at every depth
below the current directory) whose lowercased base name — never any other
path component — contains the lowercased keyword, directories rendered
with a trailing separator and type `Dir`, non-directories bare with type
`File`.  In the example, keyword `"LOG"` matches the directories `log/`
and `catalogue/` but not the file `a.txt` inside `log/`, whose full path
contains `log` while its base name does not. -/
theorem search_matches_basename :
    (∀ (keyword basePath : String) (root : FsNode),
        searchByKeyword keyword basePath root = searchByKeywordSpec keyword basePath root) ∧
    searchByKeyword "LOG" "/base"
        (FsNode.dir true (FsEntries.cons "log"
          (FsNode.dir true (FsEntries.cons "a.txt" (FsNode.file 1 true) FsEntries.nil))
          (FsEntries.cons "catalogue" (FsNode.dir true FsEntries.nil)
          (FsEntries.cons "x" (FsNode.file 1 true) FsEntries.nil)))) =
      [⟨"/base/log/", "Dir"⟩, ⟨"/base/catalogue/", "Dir"⟩] := by
  refine ⟨?_, by decide⟩
  intro keyword basePath root
  cases root with
  | file s r => rfl
  | dir acc children =>
    cases acc with
    | true => exact searchEntries_eq_spec (ToLowerAscii keyword) basePath children
    | false => rfl
  | other => rfl
